import Mathlib

/-!
Verification of the STEPBible TAGNT Textus Receptus import pipeline.

This file gives a shallow embedding, over `List Char`, of the core logic of
the repository:

* `parseReferenceRaw` / `parseReference` — the reference-token parser and
  versification remapping of `scripts/import.ts` (`parseReference`), whose
  regex is
  `^([A-Za-z0-9]+)\.(\d+)\.(\d+)(?:\x7b(\d+)\.(\d+)\x7d)?(?:\[(\d+)\.(\d+)\])?#(\d+)=(.+)$`.
* `isTrWord` — the TR-family membership predicate of `scripts/import.ts`.
* `normalizeGreek` / `computeGreek` — the Greek normalization and gematria
  computation (NFD decomposition, iota-subscript re-mapping, combining-mark
  stripping, lower-casing, and the standard/ordinal/reduced sums).
* `saveVerseData` — the pure core of `saveVerse` (sorting by word number,
  1-based positions, verse-level gematria totals, punctuation-aware join).
* `loadVerse` / `loadChapter` — the lookup functions of `src/source.ts`,
  parameterized by the file system and the JSON parser.

Platform functions (`String.prototype.normalize('NFD')`, `toLowerCase`) are
modelled by finite decomposition and case tables covering the ASCII and Greek
repertoire the program operates on.
-/

set_option maxRecDepth 4096

/-- Characterization of `[0-9]` of the reference regex (ASCII digits only,
as JavaScript `\d` without the `u` flag). -/
def isAsciiDigit (c : Char) : Bool := '0' ≤ c && c ≤ '9'

/-- Characterization of `[A-Za-z0-9]` of the reference regex. -/
def isAsciiAlnum (c : Char) : Bool :=
  ('A' ≤ c && c ≤ 'Z') || ('a' ≤ c && c ≤ 'z') || ('0' ≤ c && c ≤ '9')

/-- Decimal value of a digit list, as `parseInt(s, 10)` computes it on a
string of ASCII digits. -/
def parseDigits (l : List Char) : Nat :=
  l.foldl (fun a c => 10 * a + (c.toNat - 48)) 0

/-- Fuel-driven decimal digit sum: the inner `while (val > 0)` loop of
`computeGreek` in `tests/import.test.ts`. The fuel is only a termination
device; `digitSum` below instantiates it sufficiently. -/
def digitSumAux : Nat → Nat → Nat
  | 0, _ => 0
  | fuel + 1, v => if v = 0 then 0 else v % 10 + digitSumAux fuel (v / 10)

/-- Sum of the decimal digits of `n`. -/
def digitSum (n : Nat) : Nat := digitSumAux n n

theorem digitSumAux_le (fuel v : Nat) : digitSumAux fuel v ≤ v := by
  induction fuel generalizing v with
  | zero => simp [digitSumAux]
  | succ f ih =>
    rw [digitSumAux]
    split
    · omega
    · have h := ih (v / 10)
      omega

theorem digitSumAux_eq_of_le (f1 f2 v : Nat) (h1 : v ≤ f1) (h2 : v ≤ f2) :
    digitSumAux f1 v = digitSumAux f2 v := by
  induction f1 generalizing f2 v with
  | zero =>
    have hv : v = 0 := by omega
    subst hv
    cases f2 with
    | zero => rfl
    | succ g => simp [digitSumAux]
  | succ f ih =>
    cases f2 with
    | zero =>
      have hv : v = 0 := by omega
      subst hv
      simp [digitSumAux]
    | succ g =>
      rw [digitSumAux, digitSumAux]
      split
      · rfl
      · have hd : v / 10 < v := Nat.div_lt_self (by omega) (by omega)
        rw [ih g (v / 10) (by omega) (by omega)]

/-- Defining equation of the digit sum: `digitSum` satisfies the recurrence
the JavaScript inner loop implements. -/
theorem digitSum_eq (n : Nat) :
    digitSum n = if n = 0 then 0 else n % 10 + digitSum (n / 10) := by
  unfold digitSum
  cases n with
  | zero => rfl
  | succ m =>
    rw [digitSumAux]
    simp only [Nat.succ_ne_zero, if_false]
    have hd : (m + 1) / 10 < m + 1 := Nat.div_lt_self (by omega) (by omega)
    rw [digitSumAux_eq_of_le m ((m + 1) / 10) ((m + 1) / 10) (by omega) (by omega)]

theorem digitSum_le (n : Nat) : digitSum n ≤ n := digitSumAux_le n n

theorem digitSum_lt (n : Nat) (h : 9 < n) : digitSum n < n := by
  rw [digitSum_eq]
  split
  · omega
  · have h1 := digitSum_le (n / 10)
    omega

theorem digitSumAux_mod9 (fuel v : Nat) (h : v ≤ fuel) :
    digitSumAux fuel v % 9 = v % 9 := by
  induction fuel generalizing v with
  | zero =>
    have hv : v = 0 := by omega
    subst hv
    rfl
  | succ f ih =>
    rw [digitSumAux]
    split
    · omega
    · have hd : v / 10 < v := Nat.div_lt_self (by omega) (by omega)
      have h1 := ih (v / 10) (by omega)
      omega

/-- The digit sum preserves the value modulo 9. -/
theorem digitSum_mod9 (n : Nat) : digitSum n % 9 = n % 9 :=
  digitSumAux_mod9 n n (Nat.le_refl n)

/-- Fuel-driven repeated digit-sum reduction: the outer `while (val > 9)`
loop of `computeGreek`. -/
def digitRootAux : Nat → Nat → Nat
  | 0, v => v
  | fuel + 1, v => if 9 < v then digitRootAux fuel (digitSum v) else v

/-- Repeatedly sum the decimal digits of `n` until a single digit remains. -/
def digitRoot (n : Nat) : Nat := digitRootAux n n

theorem digitRootAux_eq_of_le (f1 f2 v : Nat) (h1 : v ≤ f1) (h2 : v ≤ f2) :
    digitRootAux f1 v = digitRootAux f2 v := by
  induction f1 generalizing f2 v with
  | zero =>
    have hv : v = 0 := by omega
    subst hv
    cases f2 with
    | zero => rfl
    | succ g => simp [digitRootAux]
  | succ f ih =>
    cases f2 with
    | zero =>
      have hv : v = 0 := by omega
      subst hv
      simp [digitRootAux]
    | succ g =>
      rw [digitRootAux, digitRootAux]
      split
      · have hlt : digitSum v < v := digitSum_lt v (by assumption)
        exact ih g (digitSum v) (by omega) (by omega)
      · rfl

/-- Defining equation of `digitRoot`: it satisfies the recurrence the outer
JavaScript loop implements. -/
theorem digitRoot_eq (n : Nat) :
    digitRoot n = if 9 < n then digitRoot (digitSum n) else n := by
  unfold digitRoot
  cases n with
  | zero => rfl
  | succ m =>
    rw [digitRootAux]
    split
    · have hlt : digitSum (m + 1) < m + 1 := digitSum_lt (m + 1) (by assumption)
      exact digitRootAux_eq_of_le m (digitSum (m + 1)) (digitSum (m + 1)) (by omega)
        (by omega)
    · rfl

theorem digitRootAux_mod9 (fuel v : Nat) : digitRootAux fuel v % 9 = v % 9 := by
  induction fuel generalizing v with
  | zero => rfl
  | succ f ih =>
    rw [digitRootAux]
    split
    · rw [ih (digitSum v), digitSum_mod9]
    · rfl

/-- Digit-sum reduction preserves the value modulo 9. -/
theorem digitRoot_mod9 (n : Nat) : digitRoot n % 9 = n % 9 :=
  digitRootAux_mod9 n n

/-- Standard gematria value table `GREEK_VALUES` of `tests/import.test.ts`:
units, tens and hundreds, with the three numeral symbols stigma (6),
koppa (90) and sampi (900), and both sigma forms at 200. -/
def GREEK_VALUES (c : Char) : Option Nat :=
  if c = 'α' then some 1       -- α
  else if c = 'β' then some 2  -- β
  else if c = 'γ' then some 3  -- γ
  else if c = 'δ' then some 4  -- δ
  else if c = 'ε' then some 5  -- ε
  else if c = 'ϛ' then some 6  -- ϛ (stigma)
  else if c = 'ζ' then some 7  -- ζ
  else if c = 'η' then some 8  -- η
  else if c = 'θ' then some 9  -- θ
  else if c = 'ι' then some 10 -- ι
  else if c = 'κ' then some 20 -- κ
  else if c = 'λ' then some 30 -- λ
  else if c = 'μ' then some 40 -- μ
  else if c = 'ν' then some 50 -- ν
  else if c = 'ξ' then some 60 -- ξ
  else if c = 'ο' then some 70 -- ο
  else if c = 'π' then some 80 -- π
  else if c = 'ϟ' then some 90 -- ϟ (koppa)
  else if c = 'ρ' then some 100 -- ρ
  else if c = 'σ' then some 200 -- σ
  else if c = 'ς' then some 200 -- ς (final sigma)
  else if c = 'τ' then some 300 -- τ
  else if c = 'υ' then some 400 -- υ
  else if c = 'φ' then some 500 -- φ
  else if c = 'χ' then some 600 -- χ
  else if c = 'ψ' then some 700 -- ψ
  else if c = 'ω' then some 800 -- ω
  else if c = 'ϡ' then some 900 -- ϡ (sampi)
  else none

/-- Ordinal gematria table `GREEK_ORDINAL` of `tests/import.test.ts`:
sequential positions 1–24 of the 24-letter alphabet, with both sigma forms
at 18 and no entries for the numeral symbols. -/
def GREEK_ORDINAL (c : Char) : Option Nat :=
  if c = 'α' then some 1       -- α
  else if c = 'β' then some 2  -- β
  else if c = 'γ' then some 3  -- γ
  else if c = 'δ' then some 4  -- δ
  else if c = 'ε' then some 5  -- ε
  else if c = 'ζ' then some 6  -- ζ
  else if c = 'η' then some 7  -- η
  else if c = 'θ' then some 8  -- θ
  else if c = 'ι' then some 9  -- ι
  else if c = 'κ' then some 10 -- κ
  else if c = 'λ' then some 11 -- λ
  else if c = 'μ' then some 12 -- μ
  else if c = 'ν' then some 13 -- ν
  else if c = 'ξ' then some 14 -- ξ
  else if c = 'ο' then some 15 -- ο
  else if c = 'π' then some 16 -- π
  else if c = 'ρ' then some 17 -- ρ
  else if c = 'σ' then some 18 -- σ
  else if c = 'ς' then some 18 -- ς (final sigma)
  else if c = 'τ' then some 19 -- τ
  else if c = 'υ' then some 20 -- υ
  else if c = 'φ' then some 21 -- φ
  else if c = 'χ' then some 22 -- χ
  else if c = 'ψ' then some 23 -- ψ
  else if c = 'ω' then some 24 -- ω
  else none

/-- Canonical (NFD) decompositions of the precomposed polytonic Greek
characters handled by `text.normalize('NFD')`, as an association table.
Each entry is `(precomposed, fully decomposed form in canonical order)`. -/
def nfdPairs : List (Char × List Char) :=
  [ ('ά', ['α', '\u0301']),           -- ά = α + acute
    ('έ', ['ε', '\u0301']),           -- έ = ε + acute
    ('ή', ['η', '\u0301']),           -- ή = η + acute
    ('ί', ['ι', '\u0301']),           -- ί = ι + acute
    ('ό', ['ο', '\u0301']),           -- ό = ο + acute
    ('ύ', ['υ', '\u0301']),           -- ύ = υ + acute
    ('ώ', ['ω', '\u0301']),           -- ώ = ω + acute
    ('ΐ', ['ι', '\u0308', '\u0301']), -- ΐ = ι + diaeresis + acute
    ('ΰ', ['υ', '\u0308', '\u0301']), -- ΰ = υ + diaeresis + acute
    ('ϊ', ['ι', '\u0308']),           -- ϊ = ι + diaeresis
    ('ϋ', ['υ', '\u0308']),           -- ϋ = υ + diaeresis
    ('ἀ', ['α', '\u0313']),           -- ἀ = α + psili
    ('ἐ', ['ε', '\u0313']),           -- ἐ = ε + psili
    ('ἠ', ['η', '\u0313']),           -- ἠ = η + psili
    ('ὁ', ['ο', '\u0314']),           -- ὁ = ο + dasia
    ('ᾳ', ['α', '\u0345']),           -- ᾳ = α + ypogegrammeni
    ('ῃ', ['η', '\u0345']),           -- ῃ = η + ypogegrammeni
    ('ῇ', ['η', '\u0342', '\u0345']), -- ῇ = η + perispomeni + ypo.
    ('ῳ', ['ω', '\u0345']),           -- ῳ = ω + ypogegrammeni
    ('ῷ', ['ω', '\u0342', '\u0345']) ] -- ῷ = ω + perispomeni + ypo.

/-- NFD decomposition of one character (characters without a table entry
decompose to themselves). -/
def nfdChar (c : Char) : List Char := (nfdPairs.lookup c).getD [c]

/-- Case table of `toLowerCase()` for the repertoire the program operates
on: ASCII capitals and the plain Greek capitals (capital sigma lowers to
medial sigma). -/
def lowerPairs : List (Char × Char) :=
  [ ('A', 'a'), ('B', 'b'), ('C', 'c'), ('D', 'd'), ('E', 'e'), ('F', 'f'),
    ('G', 'g'), ('H', 'h'), ('I', 'i'), ('J', 'j'), ('K', 'k'), ('L', 'l'),
    ('M', 'm'), ('N', 'n'), ('O', 'o'), ('P', 'p'), ('Q', 'q'), ('R', 'r'),
    ('S', 's'), ('T', 't'), ('U', 'u'), ('V', 'v'), ('W', 'w'), ('X', 'x'),
    ('Y', 'y'), ('Z', 'z'),
    ('Α', 'α'), ('Β', 'β'), ('Γ', 'γ'),
    ('Δ', 'δ'), ('Ε', 'ε'), ('Ζ', 'ζ'),
    ('Η', 'η'), ('Θ', 'θ'), ('Ι', 'ι'),
    ('Κ', 'κ'), ('Λ', 'λ'), ('Μ', 'μ'),
    ('Ν', 'ν'), ('Ξ', 'ξ'), ('Ο', 'ο'),
    ('Π', 'π'), ('Ρ', 'ρ'), ('Σ', 'σ'),
    ('Τ', 'τ'), ('Υ', 'υ'), ('Φ', 'φ'),
    ('Χ', 'χ'), ('Ψ', 'ψ'), ('Ω', 'ω') ]

/-- Lower-case one character (characters without a table entry are
unchanged). -/
def toLowerChar (c : Char) : Char := (lowerPairs.lookup c).getD c

/-- Test for the combining diacritical marks block U+0300–U+036F stripped
by `replace of the U+0300-U+036F block`. -/
def isCombiningMark (c : Char) : Bool := 0x300 ≤ c.toNat && c.toNat ≤ 0x36f

/-- Per-character action of the post-NFD pipeline of `normalizeGreek`:
re-map the combining iota subscript U+0345 to a plain iota, drop every
other combining mark, and lower-case the rest. -/
def markProc (m : Char) : List Char :=
  if m = '\u0345' then ['ι']
  else if isCombiningMark m then []
  else [toLowerChar m]

/-- Full normalization of one character: NFD decomposition followed by the
mark processing. -/
def normChar (c : Char) : List Char := (nfdChar c).flatMap markProc

/-- The function `normalizeGreek` of `tests/import.test.ts`: NFD-decompose,
re-map the iota subscript to a plain iota, strip the remaining combining
marks, lower-case. -/
def normalizeGreek (s : List Char) : List Char := s.flatMap normChar

/-- Result record of `computeGreek`. -/
structure Gematria where
  standard : Nat
  ordinal : Nat
  reduced : Nat
deriving DecidableEq, Repr

/-- Per-character accumulation step of the `for (const char of normalized)`
loop of `computeGreek`. -/
def gemStep (g : Gematria) (c : Char) : Gematria :=
  let g1 :=
    match GREEK_VALUES c with
    | some v => { g with standard := g.standard + v }
    | none => g
  match GREEK_ORDINAL c with
  | some v => { g1 with ordinal := g1.ordinal + v, reduced := g1.reduced + digitRoot v }
  | none => g1

/-- The function `computeGreek` of `tests/import.test.ts`: normalize, then
accumulate the standard, ordinal and reduced totals character by
character. -/
def computeGreek (text : List Char) : Gematria :=
  (normalizeGreek text).foldl gemStep ⟨0, 0, 0⟩

/-- Test for the JavaScript line terminators that `.` of the regex does not
match. -/
def isLineTerm (c : Char) : Bool :=
  c = '\n' || c = '\r' || c = ' ' || c = ' '

/-- Consume one expected literal character. -/
def expectChar (c : Char) : List Char → Option (List Char)
  | [] => none
  | x :: xs => if x = c then some xs else none

/-- Consume a nonempty maximal run of characters satisfying `p` (the
greedy match of a `+`-quantified character class whose continuation starts
with a character outside the class). -/
def span1 (p : Char → Bool) (s : List Char) : Option (List Char × List Char) :=
  match s.takeWhile p with
  | [] => none
  | pre => some (pre, s.dropWhile p)

/-- Attempt one optional bracketed pair `open digits . digits close`
(the groups `(?:\x7b(\d+)\.(\d+)\x7d)?` and `(?:\[(\d+)\.(\d+)\])?`): when
the full group is present it is consumed, otherwise nothing is consumed. -/
def optGroup (opc clc : Char) (s : List Char) : Option (Nat × Nat) × List Char :=
  match expectChar opc s with
  | none => (none, s)
  | some r1 =>
    match span1 isAsciiDigit r1 with
    | none => (none, s)
    | some (d1, r2) =>
      match expectChar '.' r2 with
      | none => (none, s)
      | some r3 =>
        match span1 isAsciiDigit r3 with
        | none => (none, s)
        | some (d2, r4) =>
          match expectChar clc r4 with
          | none => (none, s)
          | some r5 => (some (parseDigits d1, parseDigits d2), r5)

/-- Capture groups of the reference regex of `parseReference`
(`scripts/import.ts`): book code, primary chapter and verse, optional
brace-alternate pair, optional bracket-KJV pair, word number, and the
variant-flags string (nonempty, no line terminators). -/
structure RawRef where
  book : List Char
  ch : Nat
  vs : Nat
  alt : Option (Nat × Nat)
  kjv : Option (Nat × Nat)
  wordNum : Nat
  type : List Char
deriving DecidableEq, Repr

/-- Matcher for the reference regex
`^([A-Za-z0-9]+)\.(\d+)\.(\d+)(?:\x7b(\d+)\.(\d+)\x7d)?(?:\[(\d+)\.(\d+)\])?#(\d+)=(.+)$`.
Every boundary literal (`.`, `\x7b`, `[`, `#`, `=`) lies outside the
preceding quantified class, so the deterministic greedy scan below is
equivalent to the backtracking regex. -/
def parseReferenceRaw (s : List Char) : Option RawRef := do
  let (book, r1) ← span1 isAsciiAlnum s
  let r2 ← expectChar '.' r1
  let (chD, r3) ← span1 isAsciiDigit r2
  let r4 ← expectChar '.' r3
  let (vsD, r5) ← span1 isAsciiDigit r4
  let (alt, r6) := optGroup '\x7b' '\x7d' r5
  let (kjv, r7) := optGroup '[' ']' r6
  let r8 ← expectChar '#' r7
  let (wnD, r9) ← span1 isAsciiDigit r8
  let r10 ← expectChar '=' r9
  if r10.isEmpty || r10.any isLineTerm then none
  else
    some { book := book, ch := parseDigits chD, vs := parseDigits vsD,
           alt := alt, kjv := kjv, wordNum := parseDigits wnD, type := r10 }

/-- Result record of `parseReference`. -/
structure ParsedRef where
  book : List Char
  chapter : Nat
  verse : Nat
  wordNum : Nat
  type : List Char
deriving DecidableEq, Repr

/-- The TR-reading condition of `parseReference`
(`type.includes('K') || type.toLowerCase().includes('k')`). -/
def hasKCond (t : List Char) : Bool :=
  t.contains 'K' || (t.map toLowerChar).contains 'k'

/-- Versification resolution of `parseReference` (`scripts/import.ts`
lines 88–113): for TR readings prefer the brace-alternate pair, then the
bracket-KJV pair; otherwise keep the primary pair. -/
def resolveRef (raw : RawRef) : ParsedRef :=
  let chapter := raw.ch
  let verse := raw.vs
  let cv :=
    if hasKCond raw.type then
      match raw.alt with
      | some p => p
      | none =>
        match raw.kjv with
        | some p => p
        | none => (chapter, verse)
    else (chapter, verse)
  { book := raw.book, chapter := cv.1, verse := cv.2,
    wordNum := raw.wordNum, type := raw.type }

/-- The function `parseReference` of `scripts/import.ts`: regex match
followed by versification resolution; `none` models the `null` return on a
non-matching token. -/
def parseReference (s : List Char) : Option ParsedRef :=
  (parseReferenceRaw s).map resolveRef

/-- The function `isTrWord` of `scripts/import.ts`:
`type.includes('K') || type.includes('k')`. -/
def isTrWord (t : List Char) : Bool := t.contains 'K' || t.contains 'k'

/-- Word record built by `parseTagntFile` (interface `ParsedWord` of
`scripts/import.ts`). -/
structure ParsedWord where
  book : List Char
  chapter : Nat
  verse : Nat
  wordNum : Nat
  type : List Char
  greek : List Char
  translation : List Char
  strongs : List Char
  morph : List Char
  gloss : List Char
  editions : List Char
deriving DecidableEq, Repr

/-- Output word record (interface `WordEntry` of `scripts/import.ts`; the
always-empty `metadata` object is omitted, and the `lemma` field is named
`lemmaRefs` here because `lemma` is a reserved word). -/
structure WordEntry where
  position : Nat
  text : List Char
  lemmaRefs : Option (List (List Char))
  morph : Option (List Char)
  strongs : Option (List Char)
  translation : Option (List Char)
  gematria : Gematria
deriving DecidableEq, Repr

/-- Construction of one `WordEntry` from the sorted word list
(`words.map((w, idx) => ...)` in `saveVerse`); JavaScript string truthiness
is nonemptiness. -/
def mkWordEntry (idx : Nat) (w : ParsedWord) : WordEntry :=
  { position := idx + 1
    text := w.greek
    lemmaRefs := if w.strongs.isEmpty then none else some [w.strongs]
    morph := if w.morph.isEmpty then none else some (("robinson:").toList ++ w.morph)
    strongs := if w.strongs.isEmpty then none else some w.strongs
    translation := if w.translation.isEmpty then none else some w.translation
    gematria := computeGreek w.greek }

/-- Comparison used by `words.sort((a, b) => a.wordNum - b.wordNum)`. -/
def wordNumLE (a b : ParsedWord) : Prop := a.wordNum ≤ b.wordNum

instance : DecidableRel wordNumLE := fun a b => Nat.decLe a.wordNum b.wordNum

instance : IsTotal ParsedWord wordNumLE := ⟨fun a b => Nat.le_total a.wordNum b.wordNum⟩

instance : IsTrans ParsedWord wordNumLE := ⟨fun _ _ _ => Nat.le_trans⟩

/-- Componentwise sum of gematria records (the totals accumulation loop of
`saveVerse`). -/
def addGem (a b : Gematria) : Gematria :=
  ⟨a.standard + b.standard, a.ordinal + b.ordinal, a.reduced + b.reduced⟩

/-- Punctuation set of the replacement `replace(/\s+([,.;:!?·])/g, '$1')`. -/
def isPunctChar (c : Char) : Bool :=
  c = ',' || c = '.' || c = ';' || c = ':' || c = '!' || c = '?' || c = '·'

/-- Whitespace as matched by `\s` (the forms that can occur in the joined
text). -/
def isWsChar (c : Char) : Bool :=
  c = ' ' || c = '\t' || c = '\n' || c = '\r' || c = '\x0b' || c = '\x0c'

/-- Test whether a list starts with a punctuation character. -/
def headPunct : List Char → Bool
  | p :: _ => isPunctChar p
  | [] => false

/-- The replacement `replace(/\s+([,.;:!?·])/g, '$1')`: delete every
whitespace run immediately preceding a punctuation character (processed
right to left: a whitespace character is dropped exactly when everything
between it and the next punctuation character is whitespace that has
already been dropped). -/
def collapsePunct (s : List Char) : List Char :=
  s.foldr (fun c acc => if isWsChar c && headPunct acc then acc else c :: acc) []

/-- Output verse record (interface `VerseData` of `scripts/import.ts`). -/
structure VerseData where
  text : List Char
  words : List WordEntry
  gematria : Gematria
deriving DecidableEq, Repr

/-- Pure core of `saveVerse` (`scripts/import.ts` lines 240–278): sort the
group's words by word number, number them with 1-based positions, total the
word gematria values, and build the joined text. -/
def saveVerseData (words : List ParsedWord) : VerseData :=
  let sorted := List.insertionSort wordNumLE words
  let wordEntries := sorted.mapIdx mkWordEntry
  let totals := wordEntries.foldl (fun t e => addGem t e.gematria) ⟨0, 0, 0⟩
  let joined := List.intercalate [' '] (wordEntries.map WordEntry.text)
  { text := collapsePunct joined, words := wordEntries, gematria := totals }

/-- Book-name-to-OSIS table `BOOK_TO_OSIS` of `src/source.ts`. -/
def BOOK_TO_OSIS : List (String × String) :=
  [ ("Matthew", "Matt"), ("Mark", "Mark"), ("Luke", "Luke"), ("John", "John"),
    ("Acts", "Acts"), ("Romans", "Rom"), ("1 Corinthians", "1Cor"),
    ("2 Corinthians", "2Cor"), ("Galatians", "Gal"), ("Ephesians", "Eph"),
    ("Philippians", "Phil"), ("Colossians", "Col"),
    ("1 Thessalonians", "1Thess"), ("2 Thessalonians", "2Thess"),
    ("1 Timothy", "1Tim"), ("2 Timothy", "2Tim"), ("Titus", "Titus"),
    ("Philemon", "Phlm"), ("Hebrews", "Heb"), ("James", "Jas"),
    ("1 Peter", "1Pet"), ("2 Peter", "2Pet"), ("1 John", "1John"),
    ("2 John", "2John"), ("3 John", "3John"), ("Jude", "Jude"),
    ("Revelation", "Rev") ]

/-- The function `toOsis` of `src/source.ts` (`BOOK_TO_OSIS[book] || book`). -/
def toOsis (book : String) : String := (BOOK_TO_OSIS.lookup book).getD book

/-- Error message thrown by `loadVerse` for any failure. -/
def verseNotFoundMsg (book : String) (chapter verse : Nat) : String :=
  "Verse " ++ book ++ " " ++ toString chapter ++ ":" ++ toString verse ++
    " not found in stepbible-tagnt-tr"

/-- The function `loadVerse` of `src/source.ts`, parameterized by the file
system (`readF`, keyed by the OSIS book, chapter and verse of the data
path) and the JSON reader (`parseJson`, modelling `JSON.parse` of the file
content as a `VerseData`). The `try/catch` wraps both the read and the
parse, so either failure produces the same "not found" error. -/
def loadVerse (readF : String × Nat × Nat → Option String)
    (parseJson : String → Option VerseData)
    (book : String) (chapter verse : Nat) : Except String VerseData :=
  match readF (toOsis book, chapter, verse) with
  | none => .error (verseNotFoundMsg book chapter verse)
  | some content =>
    match parseJson content with
    | none => .error (verseNotFoundMsg book chapter verse)
    | some v => .ok v

/-- Error message thrown by `loadChapter` for any failure. -/
def chapterNotFoundMsg (book : String) (chapter : Nat) : String :=
  "Chapter " ++ book ++ " " ++ toString chapter ++
    " not found in stepbible-tagnt-tr"

/-- Removal of the first occurrence of `.json` in a file name
(`f.replace('.json', '')`). -/
def removeFirstJson (n : List Char) : List Char :=
  match n with
  | [] => []
  | c :: rest =>
    if n.take 5 = (".json").toList then n.drop 5 else c :: removeFirstJson rest

/-- Numeric sort key of the chapter file list (`parseInt` of the stem:
value of the leading digits, with digit-free stems at 0). -/
def fileKey (n : String) : Nat :=
  parseDigits ((removeFirstJson n.toList).takeWhile isAsciiDigit)

/-- Comparison used to sort the chapter's verse files numerically. -/
def fileLE (a b : String) : Prop := fileKey a ≤ fileKey b

instance : DecidableRel fileLE := fun a b => Nat.decLe (fileKey a) (fileKey b)

instance : IsTotal String fileLE := ⟨fun a b => Nat.le_total (fileKey a) (fileKey b)⟩

instance : IsTrans String fileLE := ⟨fun _ _ _ => Nat.le_trans⟩

/-- Sequential read-and-parse of the sorted verse files of a chapter (the
`for` loop of `loadChapter`); any individual failure aborts the whole
loop. -/
def readAllVerses (readF : String → Option String)
    (parseJson : String → Option VerseData) : List String → Option (List VerseData)
  | [] => some []
  | f :: rest => do
    let c ← readF f
    let v ← parseJson c
    let vs ← readAllVerses readF parseJson rest
    pure (v :: vs)

/-- The function `loadChapter` of `src/source.ts`, parameterized by the
directory listing (`readDir`, keyed by OSIS book and chapter), the file
reader and the JSON reader. As in `loadVerse`, the `try/catch` wraps the
whole body, so a missing directory, a failed file read and a failed parse
all produce the same "not found" error. -/
def loadChapter (readDir : String × Nat → Option (List String))
    (readF : String → Option String) (parseJson : String → Option VerseData)
    (book : String) (chapter : Nat) : Except String (List VerseData) :=
  match readDir (toOsis book, chapter) with
  | none => .error (chapterNotFoundMsg book chapter)
  | some files =>
    let jsonFiles :=
      List.insertionSort fileLE (files.filter (fun f => f.endsWith (".json")))
    match readAllVerses readF parseJson jsonFiles with
    | none => .error (chapterNotFoundMsg book chapter)
    | some vs => .ok vs

/-- Membership extraction for association-table lookups. -/
theorem lookup_mem {α β : Type} [BEq α] [LawfulBEq α] :
    ∀ {l : List (α × β)} {a : α} {b : β}, l.lookup a = some b → (a, b) ∈ l := by
  intro l
  induction l with
  | nil => intro a b h; simp [List.lookup] at h
  | cons p t ih =>
    intro a b h
    obtain ⟨k, v⟩ := p
    rw [List.lookup] at h
    cases hak : a == k with
    | true =>
      rw [hak] at h
      injection h with h
      have hk : a = k := eq_of_beq hak
      subst hk
      subst h
      exact List.mem_cons_self _ _
    | false =>
      rw [hak] at h
      exact List.mem_cons_of_mem _ (ih h)

/-- Example tokens used as concrete inputs below. -/
def tokMat11 : List Char := ("Mat.1.1#01=NKO").toList

/-- Raw parse of `tokMat11`. -/
def rawMat11 : RawRef :=
  { book := ("Mat").toList, ch := 1, vs := 1, alt := none, kjv := none,
    wordNum := 1, type := ("NKO").toList }

/-- Token whose numeric fields contain zeros. -/
def tokZero : List Char := ("Mat.0.1#00=NKO").toList

/-- C2: the family-membership (TR) predicate on a variantFlags string is
true exactly when the letter K is present in either case; parentheses are
ignored (stripping them does not change the result) and no other letter
affects the result; it is true for "K", "NK", "KO", "K(O)", "N(K)(O)",
"nKo", "(k)" and false for "NO", "N", "O", "N(O)". -/
theorem isTrWord_spec :
    (∀ t : List Char, isTrWord t = t.any (fun c => c == 'K' || c == 'k'))
  ∧ (∀ t : List Char,
      isTrWord (t.filter (fun c => !(c == '(' || c == ')'))) = isTrWord t)
  ∧ (([("K"), ("NK"), ("KO"), ("K(O)"), ("N(K)(O)"), ("nKo"), ("(k)")].all
      (fun s => isTrWord s.toList)) = true)
  ∧ (([("NO"), ("N"), ("O"), ("N(O)")].any (fun s => isTrWord s.toList)) = false) := by
  refine ⟨?_, ?_, by decide, by decide⟩
  · intro t
    rw [Bool.eq_iff_iff]
    simp only [isTrWord, Bool.or_eq_true, List.contains_eq_any_beq,
      List.any_eq_true, beq_iff_eq]
    constructor
    · rintro (⟨x, hx, rfl⟩ | ⟨x, hx, rfl⟩)
      · exact ⟨'K', hx, Or.inl rfl⟩
      · exact ⟨'k', hx, Or.inr rfl⟩
    · rintro ⟨x, hx, rfl | rfl⟩
      · exact Or.inl ⟨'K', hx, rfl⟩
      · exact Or.inr ⟨'k', hx, rfl⟩
  · intro t
    rw [Bool.eq_iff_iff]
    simp only [isTrWord, Bool.or_eq_true, List.contains_eq_any_beq,
      List.any_eq_true, beq_iff_eq, List.mem_filter]
    constructor
    · rintro (⟨x, ⟨hx, _⟩, rfl⟩ | ⟨x, ⟨hx, _⟩, rfl⟩)
      · exact Or.inl ⟨'K', hx, rfl⟩
      · exact Or.inr ⟨'k', hx, rfl⟩
    · rintro (⟨x, hx, rfl⟩ | ⟨x, hx, rfl⟩)
      · exact Or.inl ⟨'K', ⟨hx, by decide⟩, rfl⟩
      · exact Or.inr ⟨'k', ⟨hx, by decide⟩, rfl⟩

/-- The word "ἀρχῇ" (alpha+psili, rho, chi, eta+perispomeni+ypogegrammeni). -/
def gkArcheIota : List Char := ['ἀ', 'ρ', 'χ', 'ῇ']

/-- The word "ἀρχη" (same word without the iota subscript). -/
def gkArche : List Char := ['ἀ', 'ρ', 'χ', 'η']

/-- C3: the iota-subscript combining mark contributes exactly the value of
a full iota (10) to the standard gematria total: the normalization re-maps
U+0345 to a plain iota instead of stripping it, so "ἀρχῇ" totals 719
against 709 for "ἀρχη". -/
theorem computeGreek_iota_subscript :
    (computeGreek gkArcheIota).standard = 719
  ∧ (computeGreek gkArche).standard = 709
  ∧ (computeGreek gkArcheIota).standard - (computeGreek gkArche).standard = 10
  ∧ normChar 'ῇ' = ['η', 'ι'] := by decide

/-- C5 counterexample: reference resolution succeeds on the token
"Mat.0.1#00=NKO" with chapter 0 and word number 0, so the invariant
`chapter ≥ 1 ∧ verse ≥ 1 ∧ wordNumber ≥ 1` does not hold of every
successfully parsed token. -/
theorem parseReference_invariant_counterexample :
    ¬ (∀ (s : List Char) (r : ParsedRef), parseReference s = some r →
        1 ≤ r.chapter ∧ 1 ≤ r.verse ∧ 1 ≤ r.wordNum) := by
  intro h
  have hc := h tokZero
    { book := ("Mat").toList, chapter := 0, verse := 1, wordNum := 0,
      type := ("NKO").toList } (by decide)
  exact absurd hc (by decide)

/-- C5 amended: for every token on which reference resolution succeeds and
whose numeric fields (primary chapter and verse, word number, and both
components of any brace or bracket pair) are all at least 1, the resolved
result satisfies `chapter ≥ 1`, `verse ≥ 1` and `wordNumber ≥ 1`. -/
theorem parseReference_invariant_amended (s : List Char) (raw : RawRef)
    (h : parseReferenceRaw s = some raw)
    (h1 : 1 ≤ raw.ch) (h2 : 1 ≤ raw.vs) (h3 : 1 ≤ raw.wordNum)
    (h4 : ∀ p ∈ raw.alt, 1 ≤ p.1 ∧ 1 ≤ p.2)
    (h5 : ∀ p ∈ raw.kjv, 1 ≤ p.1 ∧ 1 ≤ p.2) :
    ∃ r : ParsedRef, parseReference s = some r ∧
      1 ≤ r.chapter ∧ 1 ≤ r.verse ∧ 1 ≤ r.wordNum := by
  refine ⟨resolveRef raw, by rw [parseReference, h]; rfl, ?_⟩
  simp only [resolveRef]
  split
  · cases halt : raw.alt with
    | some p =>
      obtain ⟨hp1, hp2⟩ := h4 p (Option.mem_def.mpr halt)
      simp only [halt]
      exact ⟨hp1, hp2, h3⟩
    | none =>
      cases hkjv : raw.kjv with
      | some p =>
        obtain ⟨hp1, hp2⟩ := h5 p (Option.mem_def.mpr hkjv)
        simp only [halt, hkjv]
        exact ⟨hp1, hp2, h3⟩
      | none =>
        simp only [halt, hkjv]
        exact ⟨h1, h2, h3⟩
  · exact ⟨h1, h2, h3⟩

/-- Witness for the amended C5 at the concrete token "Mat.1.1#01=NKO". -/
theorem parseReference_invariant_witness :
    (parseReferenceRaw tokMat11 = some rawMat11 ∧ 1 ≤ rawMat11.ch)
  ∧ (∃ r : ParsedRef, parseReference tokMat11 = some r ∧
      1 ≤ r.chapter ∧ 1 ≤ r.verse ∧ 1 ≤ r.wordNum) :=
  ⟨⟨by decide, by decide⟩,
    parseReference_invariant_amended tokMat11 rawMat11 (by decide) (by decide)
      (by decide) (by decide) (by decide) (by decide)⟩

/-- Accumulation invariant for the ordinal/reduced congruence. -/
theorem foldl_gemStep_mod9 (l : List Char) :
    ∀ g : Gematria, g.ordinal % 9 = g.reduced % 9 →
      (l.foldl gemStep g).ordinal % 9 = (l.foldl gemStep g).reduced % 9 := by
  induction l with
  | nil => intro g h; exact h
  | cons c t ih =>
    intro g h
    rw [List.foldl_cons]
    refine ih (gemStep g c) ?_
    cases hv : GREEK_VALUES c with
    | none =>
      cases ho : GREEK_ORDINAL c with
      | none => simpa [gemStep, hv, ho] using h
      | some v =>
        have hr := digitRoot_mod9 v
        simp [gemStep, hv, ho]
        omega
    | some w =>
      cases ho : GREEK_ORDINAL c with
      | none => simpa [gemStep, hv, ho] using h
      | some v =>
        have hr := digitRoot_mod9 v
        simp [gemStep, hv, ho]
        omega

/-- C10: for every input string the ordinal and reduced gematria totals are
congruent modulo 9, because each character's reduced digit is the repeated
decimal digit sum of its ordinal value. -/
theorem computeGreek_ordinal_reduced_mod9 (s : List Char) :
    (computeGreek s).ordinal % 9 = (computeGreek s).reduced % 9 :=
  foldl_gemStep_mod9 (normalizeGreek s) ⟨0, 0, 0⟩ rfl

/-- Componentwise characterization of the verse-totals fold of
`saveVerse`. -/
theorem foldl_addGem (es : List WordEntry) :
    ∀ t : Gematria,
      ((es.foldl (fun a e => addGem a e.gematria) t).standard
          = t.standard + (es.map (fun e => e.gematria.standard)).sum)
    ∧ ((es.foldl (fun a e => addGem a e.gematria) t).ordinal
          = t.ordinal + (es.map (fun e => e.gematria.ordinal)).sum)
    ∧ ((es.foldl (fun a e => addGem a e.gematria) t).reduced
          = t.reduced + (es.map (fun e => e.gematria.reduced)).sum) := by
  induction es with
  | nil => intro t; simp
  | cons e rest ih =>
    intro t
    simp only [List.foldl_cons, List.map_cons, List.sum_cons]
    obtain ⟨i1, i2, i3⟩ := ih (addGem t e.gematria)
    rw [i1, i2, i3]
    simp only [addGem]
    refine ⟨by omega, by omega, by omega⟩

/-- C4: each component of the verse-level gematria equals the exact sum of
the corresponding component over the verse's word-level gematria values
(the totals are computed by summation over the word records). -/
theorem saveVerse_gematria_sum (ws : List ParsedWord) :
    ((saveVerseData ws).gematria.standard
        = (((saveVerseData ws).words).map (fun w => w.gematria.standard)).sum)
  ∧ ((saveVerseData ws).gematria.ordinal
        = (((saveVerseData ws).words).map (fun w => w.gematria.ordinal)).sum)
  ∧ ((saveVerseData ws).gematria.reduced
        = (((saveVerseData ws).words).map (fun w => w.gematria.reduced)).sum) := by
  simp only [saveVerseData]
  obtain ⟨i1, i2, i3⟩ :=
    foldl_addGem ((List.insertionSort wordNumLE ws).mapIdx mkWordEntry) ⟨0, 0, 0⟩
  rw [i1, i2, i3]
  simp

/-- A character is recognized when some character of its normalized form
has an entry in one of the two value tables. -/
def charRecognized (c : Char) : Bool :=
  (normChar c).any (fun d => (GREEK_VALUES d).isSome || (GREEK_ORDINAL d).isSome)

/-- A character with no entry in either table leaves the accumulator
unchanged. -/
theorem gemStep_id_of_none (g : Gematria) (c : Char)
    (h1 : GREEK_VALUES c = none) (h2 : GREEK_ORDINAL c = none) :
    gemStep g c = g := by
  simp [gemStep, h1, h2]

/-- Folding over characters that all lack table entries is the identity. -/
theorem foldl_gemStep_neutral (l : List Char)
    (h : ∀ d ∈ l, GREEK_VALUES d = none ∧ GREEK_ORDINAL d = none) :
    ∀ g : Gematria, l.foldl gemStep g = g := by
  induction l with
  | nil => intro g; rfl
  | cons c t ih =>
    intro g
    rw [List.foldl_cons]
    obtain ⟨h1, h2⟩ := h c (List.mem_cons_self c t)
    rw [gemStep_id_of_none g c h1 h2]
    exact ih (fun d hd => h d (List.mem_cons_of_mem c hd)) g

/-- C8: the gematria computation is a total function and a character with
no entry in a value table contributes 0: `computeGreek` of a string equals
`computeGreek` of the string with all unrecognized characters removed. -/
theorem computeGreek_filter_unrecognized (s : List Char) :
    computeGreek s = computeGreek (s.filter charRecognized) := by
  unfold computeGreek normalizeGreek
  suffices H : ∀ g : Gematria,
      ((s.flatMap normChar).foldl gemStep g)
        = (((s.filter charRecognized).flatMap normChar).foldl gemStep g) from H _
  induction s with
  | nil => intro g; rfl
  | cons c t ih =>
    intro g
    rw [List.flatMap_cons, List.foldl_append]
    by_cases hc : charRecognized c = true
    · rw [List.filter_cons_of_pos hc, List.flatMap_cons, List.foldl_append, ih]
    · have hall : ∀ d ∈ normChar c, GREEK_VALUES d = none ∧ GREEK_ORDINAL d = none := by
        intro d hd
        simp only [charRecognized, List.any_eq_true, not_exists] at hc
        push_neg at hc
        have := hc d hd
        constructor
        · cases hv : GREEK_VALUES d
          · rfl
          · rw [hv] at this; simp at this
        · cases ho : GREEK_ORDINAL d
          · rfl
          · rw [ho] at this; simp at this
      rw [List.filter_cons_of_neg hc, foldl_gemStep_neutral (normChar c) hall g, ih]

/-- Positions produced by the indexed map of `saveVerse`, with a running
offset. -/
theorem mapIdx_position (l : List ParsedWord) :
    ∀ n : Nat, ((l.mapIdx (fun i w => mkWordEntry (i + n) w)).map
        (fun e => e.position)) = List.range' (n + 1) l.length := by
  induction l with
  | nil => intro n; rfl
  | cons a t ih =>
    intro n
    rw [List.mapIdx_cons, List.map_cons, List.length_cons, List.range'_succ]
    have he : (fun i w => mkWordEntry (i + 1 + n) w)
        = (fun i w => mkWordEntry (i + (n + 1)) w) := by
      funext i w
      congr 1
      omega
    rw [he, ih (n + 1)]
    congr 1
    simp [mkWordEntry]

/-- C6: within every verse group the output words are the group's words
sorted by raw word number ascending, and each word's `position` is its
1-based rank in that order — the positions are exactly `1..n`, contiguous,
independent of the (possibly gapped) raw word numbers. -/
theorem saveVerse_order_positions (ws : List ParsedWord) :
    (List.insertionSort wordNumLE ws).Perm ws
  ∧ List.Pairwise wordNumLE (List.insertionSort wordNumLE ws)
  ∧ (saveVerseData ws).words = (List.insertionSort wordNumLE ws).mapIdx mkWordEntry
  ∧ ((saveVerseData ws).words.map (fun e => e.position)) = List.range' 1 ws.length := by
  refine ⟨List.perm_insertionSort wordNumLE ws,
    List.sorted_insertionSort wordNumLE ws, rfl, ?_⟩
  have hw : (saveVerseData ws).words
      = (List.insertionSort wordNumLE ws).mapIdx mkWordEntry := rfl
  have he : (List.insertionSort wordNumLE ws).mapIdx mkWordEntry
      = (List.insertionSort wordNumLE ws).mapIdx (fun i w => mkWordEntry (i + 0) w) := by
    simp
  rw [hw, he, mapIdx_position, List.length_insertionSort]

/-- Lower-casing sends a character to `k` exactly when it is `K` or `k`. -/
theorem toLowerChar_eq_k (c : Char) : toLowerChar c = 'k' ↔ c = 'K' ∨ c = 'k' := by
  constructor
  · intro h
    cases hl : lowerPairs.lookup c with
    | none =>
      right
      simp only [toLowerChar, hl, Option.getD_none] at h
      exact h
    | some v =>
      have hm := lookup_mem hl
      have hF : ∀ p ∈ lowerPairs, p.2 = 'k' → p.1 = 'K' := by decide
      simp only [toLowerChar, hl, Option.getD_some] at h
      subst h
      exact Or.inl (hF (c, 'k') hm rfl)
  · rintro (rfl | rfl) <;> decide

/-- The TR condition of `parseReference` holds exactly when the flags
contain the letter K in either case. -/
theorem hasKCond_iff (t : List Char) : hasKCond t = true ↔ ('K' ∈ t ∨ 'k' ∈ t) := by
  simp only [hasKCond, Bool.or_eq_true, List.contains, List.elem_iff, List.mem_map]
  constructor
  · rintro (h | ⟨c, hc, hk⟩)
    · exact Or.inl h
    · rcases (toLowerChar_eq_k c).mp hk with rfl | rfl
      · exact Or.inl hc
      · exact Or.inr hc
  · rintro (h | h)
    · exact Or.inl h
    · exact Or.inr ⟨'k', h, by decide⟩

/-- C1: for every token matching the reference grammar, the resolved
`(chapter, verse)` is the brace-alternate pair when the variant flags
contain the letter K in either case and a brace pair is present (the brace
pair taking precedence over any bracket pair); otherwise the bracket pair
when the flags contain K/k and a bracket pair is present; otherwise the
primary pair — and for tokens whose flags contain neither K nor k it is
always the primary pair, regardless of brace/bracket presence. -/
theorem parseReference_versification (s : List Char) (raw : RawRef)
    (h : parseReferenceRaw s = some raw) :
    ∃ r : ParsedRef, parseReference s = some r ∧
      r.book = raw.book ∧ r.wordNum = raw.wordNum ∧ r.type = raw.type ∧
      (('K' ∈ raw.type ∨ 'k' ∈ raw.type) →
        ((∀ p ∈ raw.alt, r.chapter = p.1 ∧ r.verse = p.2)
         ∧ (raw.alt = none → ∀ p ∈ raw.kjv, r.chapter = p.1 ∧ r.verse = p.2)
         ∧ (raw.alt = none → raw.kjv = none →
              r.chapter = raw.ch ∧ r.verse = raw.vs)))
      ∧ (¬ ('K' ∈ raw.type ∨ 'k' ∈ raw.type) →
          r.chapter = raw.ch ∧ r.verse = raw.vs) := by
  refine ⟨resolveRef raw, by rw [parseReference, h]; rfl, by simp [resolveRef],
    by simp [resolveRef], by simp [resolveRef], ?_, ?_⟩
  · intro hK
    have hb : hasKCond raw.type = true := (hasKCond_iff raw.type).mpr hK
    refine ⟨?_, ?_, ?_⟩
    · intro p hp
      have halt : raw.alt = some p := Option.mem_def.mp hp
      simp [resolveRef, hb, halt]
    · intro halt p hp
      have hkjv : raw.kjv = some p := Option.mem_def.mp hp
      simp [resolveRef, hb, halt, hkjv]
    · intro halt hkjv
      simp [resolveRef, hb, halt, hkjv]
  · intro hK
    have hb : hasKCond raw.type = false := by
      cases hc : hasKCond raw.type
      · rfl
      · exact absurd ((hasKCond_iff raw.type).mp hc) hK
    simp [resolveRef, hb]

/-- The Romans doxology token with both a brace and no bracket pair. -/
def tokRom : List Char := ("Rom.16.25{14.24}#01=K(O)").toList

/-- Raw parse of `tokRom`. -/
def rawRom : RawRef :=
  { book := ("Rom").toList, ch := 16, vs := 25, alt := some (14, 24),
    kjv := none, wordNum := 1, type := ("K(O)").toList }

/-- Witness for C1 at the concrete token "Rom.16.25{14.24}#01=K(O)". -/
theorem parseReference_versification_witness :
    (parseReferenceRaw tokRom = some rawRom)
  ∧ (∃ r : ParsedRef, parseReference tokRom = some r ∧
      r.book = rawRom.book ∧ r.wordNum = rawRom.wordNum ∧ r.type = rawRom.type ∧
      (('K' ∈ rawRom.type ∨ 'k' ∈ rawRom.type) →
        ((∀ p ∈ rawRom.alt, r.chapter = p.1 ∧ r.verse = p.2)
         ∧ (rawRom.alt = none → ∀ p ∈ rawRom.kjv, r.chapter = p.1 ∧ r.verse = p.2)
         ∧ (rawRom.alt = none → rawRom.kjv = none →
              r.chapter = rawRom.ch ∧ r.verse = rawRom.vs)))
      ∧ (¬ ('K' ∈ rawRom.type ∨ 'k' ∈ rawRom.type) →
          r.chapter = rawRom.ch ∧ r.verse = rawRom.vs)) :=
  ⟨by decide, parseReference_versification tokRom rawRom (by decide)⟩

/-- A file system stub on which every verse file is present. -/
def fsStub : String × Nat × Nat → Option String := fun _ => some ("garbage")

/-- A JSON reader stub on which every parse fails (malformed content). -/
def parseStub : String → Option VerseData := fun _ => none

/-- C9 counterexample: `loadVerse` reports the "not found" error on a file
system where the requested verse file is present but fails to parse, so the
"not found" failure is not reserved for absent data — a parse failure of
present data is conflated with it. -/
theorem loadVerse_notfound_counterexample :
    ¬ (∀ (readF : String × Nat × Nat → Option String)
         (parseJson : String → Option VerseData)
         (book : String) (chapter verse : Nat),
        loadVerse readF parseJson book chapter verse
            = Except.error (verseNotFoundMsg book chapter verse)
          → readF (toOsis book, chapter, verse) = none) := by
  intro h
  have hc := h fsStub parseStub ("Matthew") 1 1 rfl
  simp [fsStub] at hc

/-- C9 amended: a lookup fails exactly when the requested data is absent or
present data fails to read or parse, and every failure carries the same
"not found" error: absent verses/chapters are reported as not found, but a
parse failure of present data is conflated into the same error. -/
theorem loadVerse_notfound_amended
    (readDir : String × Nat → Option (List String))
    (readF2 : String → Option String)
    (readF : String × Nat × Nat → Option String)
    (parseJson : String → Option VerseData)
    (book : String) (chapter verse : Nat) :
    (loadVerse readF parseJson book chapter verse
        = Except.error (verseNotFoundMsg book chapter verse)
      ↔ (readF (toOsis book, chapter, verse) = none
         ∨ ∃ content, readF (toOsis book, chapter, verse) = some content
             ∧ parseJson content = none))
  ∧ ((loadVerse readF parseJson book chapter verse).isOk = true
      ∨ loadVerse readF parseJson book chapter verse
          = Except.error (verseNotFoundMsg book chapter verse))
  ∧ (loadChapter readDir readF2 parseJson book chapter
        = Except.error (chapterNotFoundMsg book chapter)
      ↔ (readDir (toOsis book, chapter) = none
         ∨ ∃ files, readDir (toOsis book, chapter) = some files
             ∧ readAllVerses readF2 parseJson
                 (List.insertionSort fileLE
                   (files.filter (fun f => f.endsWith (".json")))) = none))
  ∧ ((loadChapter readDir readF2 parseJson book chapter).isOk = true
      ∨ loadChapter readDir readF2 parseJson book chapter
          = Except.error (chapterNotFoundMsg book chapter)) := by
  refine ⟨?_, ?_, ?_, ?_⟩
  · cases hr : readF (toOsis book, chapter, verse) with
    | none => simp [loadVerse, hr]
    | some content =>
      cases hp : parseJson content with
      | none => simp [loadVerse, hr, hp]
      | some v => simp [loadVerse, hr, hp]
  · cases hr : readF (toOsis book, chapter, verse) with
    | none => right; simp [loadVerse, hr]
    | some content =>
      cases hp : parseJson content with
      | none => right; simp [loadVerse, hr, hp]
      | some v => left; simp [loadVerse, hr, hp, Except.isOk, Except.toBool]
  · cases hd : readDir (toOsis book, chapter) with
    | none => simp [loadChapter, hd]
    | some files =>
      cases ha : readAllVerses readF2 parseJson
          (List.insertionSort fileLE (files.filter (fun f => f.endsWith (".json")))) with
      | none => simp [loadChapter, hd, ha]
      | some vs => simp [loadChapter, hd, ha]
  · cases hd : readDir (toOsis book, chapter) with
    | none => right; simp [loadChapter, hd]
    | some files =>
      cases ha : readAllVerses readF2 parseJson
          (List.insertionSort fileLE (files.filter (fun f => f.endsWith (".json")))) with
      | none => right; simp [loadChapter, hd, ha]
      | some vs => left; simp [loadChapter, hd, ha, Except.isOk, Except.toBool]

/-- Stability of normalization: every character produced by `normChar` is
itself normalized (its normalization is the singleton of itself). -/
theorem normChar_stable (c : Char) : ∀ d ∈ normChar c, normChar d = [d] := by
  intro d hd
  cases hn : nfdPairs.lookup c with
  | some l =>
    have hm := lookup_mem hn
    have hF : ∀ p ∈ nfdPairs, ∀ d ∈ (p.2.flatMap markProc), normChar d = [d] := by
      decide
    have hc : normChar c = l.flatMap markProc := by
      rw [normChar, nfdChar, hn]
      rfl
    rw [hc] at hd
    exact hF (c, l) hm d hd
  | none =>
    have hc : nfdChar c = [c] := by rw [nfdChar, hn]; rfl
    have hc2 : normChar c = markProc c := by
      rw [normChar, hc]
      simp
    rw [hc2, markProc] at hd
    by_cases h345 : c = 'ͅ'
    · rw [if_pos h345] at hd
      simp at hd
      subst hd
      decide
    · rw [if_neg h345] at hd
      by_cases hcm : isCombiningMark c = true
      · rw [if_pos hcm] at hd
        simp at hd
      · rw [if_neg hcm] at hd
        simp at hd
        subst hd
        cases hl : lowerPairs.lookup c with
        | some v =>
          have hm := lookup_mem hl
          have hG : ∀ p ∈ lowerPairs, normChar p.2 = [p.2] := by decide
          have hv : toLowerChar c = v := by rw [toLowerChar, hl]; rfl
          rw [hv]
          exact hG (c, v) hm
        | none =>
          have hlc : toLowerChar c = c := by rw [toLowerChar, hl]; rfl
          rw [hlc, hc2, markProc, if_neg h345, if_neg hcm, hlc]

/-- Normalizing a list of already-normalized characters is the identity. -/
theorem flatMap_normChar_of_stable (l : List Char)
    (h : ∀ d ∈ l, normChar d = [d]) : l.flatMap normChar = l := by
  induction l with
  | nil => rfl
  | cons d t ih =>
    rw [List.flatMap_cons, h d (List.mem_cons_self d t),
      ih (fun e he => h e (List.mem_cons_of_mem d he))]
    rfl

/-- C7: the Greek normalization is idempotent — normalizing
already-normalized text is a no-op. -/
theorem normalizeGreek_idempotent (s : List Char) :
    normalizeGreek (normalizeGreek s) = normalizeGreek s := by
  unfold normalizeGreek
  induction s with
  | nil => rfl
  | cons c t ih =>
    rw [List.flatMap_cons, List.flatMap_append, ih]
    congr 1
    exact flatMap_normChar_of_stable (normChar c) (normChar_stable c)
